import Mathlib

/-!
Verification development for the silent-organizer repository.

Shallow embedding of:
- `silent_organizer/utils/path_utils.py` (pathlib-style name splitting,
  `sanitize_filename`, `generate_non_overwriting_path`),
- `silent_organizer/engine/rule_engine.py` (`RuleEngine.decide`),
- `silent_organizer/engine/organizer.py` (`_safe_move_file`, `Organizer.organize_file`
  as an event trace, `ActivityLog` operations),
- `silent_organizer/watcher/file_watcher.py` (`_wait_until_stable`, worker handling).

Conventions: Python floats holding only sums of decimal score constants are
embedded exactly as integers in centi-units (`ℤ`, ×100); the one genuinely
fractional float (the clutter percentage) is embedded as an exact rational
(`ℚ`); wall-clock seconds are embedded as milliseconds (`Nat`); filesystem
state is a map from paths to file contents; I/O failure points and
collaborator outcomes are oracle inputs.
-/

namespace SilentOrganizer

/-! ## path_utils: pathlib-style stem/suffix of a file name

`pathlib.PurePath.suffix` returns `name[i:]` where `i = name.rfind('.')`,
provided `0 < i < len(name) - 1`, and `''` otherwise; `stem` is the
complementary part. -/

/-- Index of the last `'.'` in the character list, if any. -/
def rfindDot (cs : List Char) : Option Nat :=
  match cs.reverse.findIdx? (· = '.') with
  | some j => some (cs.length - 1 - j)
  | none => none

/-- Split a file name into (stem, suffix) with pathlib semantics. -/
def pathSplit (name : String) : String × String :=
  let cs := name.toList
  match rfindDot cs with
  | some i =>
    if 0 < i ∧ i < cs.length - 1 then (String.mk (cs.take i), String.mk (cs.drop i))
    else (name, "")
  | none => (name, "")

/-! ## path_utils.sanitize_filename -/

/-- The characters `<>:"/\|?*` replaced by `_` (Windows-invalid set). -/
def isWinInvalidChar (c : Char) : Bool :=
  c = '<' ∨ c = '>' ∨ c = ':' ∨ c = '"' ∨ c = '/' ∨ c = '\\' ∨ c = '|' ∨ c = '?' ∨ c = '*'

/-- Python `str.rstrip(". ")`. -/
def rstripDotSpace (cs : List Char) : List Char :=
  (cs.reverse.dropWhile (fun c => c = '.' ∨ c = ' ')).reverse

/-- `sanitize_filename`: strip whitespace, drop NUL, replace Windows-invalid
characters by `_`, right-strip dots/spaces, default to `"untitled"`. -/
def sanitize_filename (s : String) : String :=
  let c1 := s.trim
  let c2 := c1.toList.filter (fun c => c ≠ Char.ofNat 0)
  let c3 := c2.map (fun c => if isWinInvalidChar c then '_' else c)
  let c4 := rstripDotSpace c3
  if c4.isEmpty then "untitled" else String.mk c4

/-! ## path_utils.generate_non_overwriting_path

A filesystem path is a directory plus a file name; existence is probed
through a boolean oracle (the state of the filesystem at computation time).
The Python loop probes `f"{stem} ({i}){suffix}"` for `i in range(1, 10_000)`
and, past that bound, falls back to the process id without re-checking. -/

structure FPath where
  dir : String
  name : String
deriving DecidableEq, Repr

/-- Render a path as the string the Python code would log. -/
def FPath.render (p : FPath) : String := p.dir ++ "/" ++ p.name

/-- The numbered candidate name `"{stem} ({i}){suffix}"`. -/
def numberedName (stem : String) (i : Nat) (sfx : String) : String :=
  stem ++ " (" ++ toString i ++ ")" ++ sfx

def generate_non_overwriting_path (exs : FPath → Bool) (pid : Nat) (p : FPath) : FPath :=
  if exs p = false then p
  else
    match (List.range' 1 9999).find?
        (fun i => exs ⟨p.dir, numberedName (pathSplit p.name).1 i (pathSplit p.name).2⟩ = false) with
    | some i => ⟨p.dir, numberedName (pathSplit p.name).1 i (pathSplit p.name).2⟩
    | none => ⟨p.dir, numberedName (pathSplit p.name).1 pid (pathSplit p.name).2⟩

/-! ## Mover: `_safe_move_file`

The filesystem is a map from paths to file contents (`none` = absent).
Directory creation (`ensure_directory(dest.parent)`) does not touch the
file map and is not represented here. The I/O failure points of the source
are oracle booleans:
- `linkOk`: `os.link` succeeds (otherwise it raises and the code falls back);
- `unlinkSrcAfterLinkOk`: the `os.unlink(src)` right after a successful link
  succeeds; on failure the code best-effort-unlinks the fresh `dest` link
  (`unlinkDestCleanupOk`) and re-raises — which the outer `except` swallows,
  falling through to the streamed-copy path;
- `copyOk`: `shutil.copyfileobj` runs to completion; on a mid-copy failure
  the bytes written so far are `copyLeftover` and the exception propagates
  (the `with` blocks only close the handles);
- `unlinkSrcAfterCopyOk`: the final `os.unlink(src)` succeeds. -/

def FS : Type := FPath → Option String

/-- Point update of the filesystem map. -/
def fsSet (fs : FS) (p : FPath) (v : Option String) : FS :=
  fun q => if q = p then v else fs q

inductive MoveErr where
  | destExists
  | srcMissing
  | ioFailure
deriving DecidableEq, Repr

instance : DecidableEq (Except MoveErr Unit) := fun a b =>
  match a, b with
  | .ok x, .ok y =>
    match decEq x y with
    | isTrue h => isTrue (h ▸ rfl)
    | isFalse h => isFalse (fun hh => h (Except.ok.inj hh))
  | .error x, .error y =>
    match decEq x y with
    | isTrue h => isTrue (h ▸ rfl)
    | isFalse h => isFalse (fun hh => h (Except.error.inj hh))
  | .ok _, .error _ => isFalse (fun hh => Except.noConfusion hh)
  | .error _, .ok _ => isFalse (fun hh => Except.noConfusion hh)

structure MoveOracle where
  linkOk : Bool
  unlinkSrcAfterLinkOk : Bool
  unlinkDestCleanupOk : Bool
  copyOk : Bool
  copyLeftover : String
  unlinkSrcAfterCopyOk : Bool
deriving Repr

/-- The streamed-copy fallback of `_safe_move_file`:
`open(src, "rb")` (raises if the source is gone), `open(dest, "xb")`
(exclusive create: raises if the destination exists, creating nothing),
`shutil.copyfileobj`, best-effort flush/fsync/copystat, then `os.unlink(src)`. -/
def copyFallback (o : MoveOracle) (fs : FS) (src dest : FPath) :
    Except MoveErr Unit × FS :=
  match fs src with
  | none => (.error .srcMissing, fs)
  | some content =>
    if (fs dest).isSome then (.error .destExists, fs)
    else if o.copyOk then
      let fs1 := fsSet fs dest (some content)
      if o.unlinkSrcAfterCopyOk then (.ok (), fsSet fs1 src none)
      else (.error .ioFailure, fs1)
    else (.error .ioFailure, fsSet fs dest (some o.copyLeftover))

/-- `_safe_move_file(src, dest)`: raise `FileExistsError` if `dest` exists,
else try hard-link + unlink, falling back to the streamed copy. -/
def safe_move_file (o : MoveOracle) (fs : FS) (src dest : FPath) :
    Except MoveErr Unit × FS :=
  if (fs dest).isSome then (.error .destExists, fs)
  else
    match fs src with
    | none => copyFallback o fs src dest
    | some content =>
      if o.linkOk then
        let fs1 := fsSet fs dest (some content)
        if o.unlinkSrcAfterLinkOk then (.ok (), fsSet fs1 src none)
        else
          let fs2 := if o.unlinkDestCleanupOk then fsSet fs1 dest none else fs1
          copyFallback o fs2 src dest
      else copyFallback o fs src dest

/-! ## RuleEngine (`rule_engine.py`)

Scores are Python floats holding sums of the decimal constants
0.35 / 0.20 / 0.12 / 0.55 / 0.08; they are embedded exactly as integers in
centi-units (×100): 0.35 ↦ 35, 0.20 ↦ 20, 0.12 ↦ 12, 0.55 ↦ 55, 0.08 ↦ 8,
0.99 ↦ 99, 0.25 ↦ 25. String lowering is per-character (ASCII-faithful). -/

/-- Per-character lower-casing (Python `str.lower()` on ASCII data). -/
def strLower (s : String) : String := String.mk (s.toList.map Char.toLower)

/-- Python `needle in hay` substring test. -/
def strContains (hay needle : String) : Bool :=
  decide (needle.toList <:+: hay.toList)

/-- `TOKEN_RE = [a-z0-9]+` with IGNORECASE: a token character. -/
def isTokenChar (c : Char) : Bool :=
  ('a' ≤ c ∧ c ≤ 'z') ∨ ('A' ≤ c ∧ c ≤ 'Z') ∨ ('0' ≤ c ∧ c ≤ '9')

/-- Maximal runs of token characters (the `findall` of `TOKEN_RE`). -/
def tokenizeAux : List Char → List Char → List String
  | [], acc => if acc.isEmpty then [] else [String.mk acc.reverse]
  | c :: rest, acc =>
    if isTokenChar c then tokenizeAux rest (c :: acc)
    else if acc.isEmpty then tokenizeAux rest []
    else String.mk acc.reverse :: tokenizeAux rest []

/-- `_tokenize`: alphanumeric runs, each lowered. -/
def tokenize (s : String) : List String := (tokenizeAux s.toList []).map strLower

structure Category where
  name : String
  destination : String
  keywords : List String
  extensions : List String
deriving DecidableEq, Repr

structure Rules where
  education_mode : Bool
  categories : List Category
  fallback_destination : String
deriving Repr

structure RuleDecision where
  category_name : String
  destination_relative : String
  confidence : ℤ
  reasons : List String
deriving DecidableEq, Repr

/-- The education-mode vocabulary. -/
def eduVocab : List String := ["lecture", "assignment", "exam", "quiz", "midterm", "final"]

/-- Score of one category for a (lowered) filename/extension and its tokens:
+0.35 on extension match, `min(0.55, 0.20 + 0.12*hits)` on `hits ≥ 1`
keyword substring hits, +0.08 education boost; with the reasons strings
accumulated in source order. -/
def scoreCat (em : Bool) (filename ext : String) (tokens : List String)
    (cat : Category) : ℤ × List String :=
  let extMatch := ext ≠ "" ∧ ext ∈ cat.extensions.map strLower
  let hitKws := (cat.keywords.map (fun kw => strLower kw.trim)).filter
    (fun k => k ≠ "" ∧ strContains filename k = true)
  let hits : Nat := hitKws.length
  let eduHit := em = true ∧ tokens.any (fun t => decide (t ∈ eduVocab)) = true
  let score : ℤ :=
    (if extMatch then (35 : ℤ) else 0) +
    (if hits ≠ 0 then min ((55 : ℤ)) ((20 : ℤ) + (hits : ℤ) * ((12 : ℤ))) else 0) +
    (if eduHit then (8 : ℤ) else 0)
  let reasons :=
    (if extMatch then ["extension:" ++ ext] else []) ++
    hitKws.map (fun k => "keyword:" ++ k) ++
    (if eduHit then ["education_mode_boost"] else [])
  (score, reasons)

structure BestAcc where
  score : ℤ
  best : Option (String × String)
  reasons : List String
deriving Repr

/-- One step of the source's scan: `if destination and score > best_score`. -/
def decideFold (em : Bool) (filename ext : String) (tokens : List String)
    (acc : BestAcc) (cat : Category) : BestAcc :=
  let sr := scoreCat em filename ext tokens cat
  if cat.destination ≠ "" ∧ sr.1 > acc.score then
    ⟨sr.1, some (cat.name, cat.destination), sr.2⟩
  else acc

/-- `RuleEngine.decide` on a file name (the only part of the path it reads). -/
def RuleEngine.decide (rules : Rules) (fname : String) : RuleDecision :=
  let filename := strLower fname
  let stem := strLower (pathSplit fname).1
  let ext := strLower (pathSplit fname).2
  let tokens := tokenize stem
  let acc := rules.categories.foldl (decideFold rules.education_mode filename ext tokens)
    ⟨0, none, []⟩
  match acc.best with
  | some nd =>
    if acc.score ≥ (35 : ℤ) then
      ⟨nd.1, nd.2, min ((99 : ℤ)) (max 0 acc.score), acc.reasons⟩
    else ⟨"Fallback", rules.fallback_destination, (25 : ℤ), ["fallback"]⟩
  | none => ⟨"Fallback", rules.fallback_destination, (25 : ℤ), ["fallback"]⟩

/-! ### Claim-side classifier (C5)

These definitions follow the wording of the specification/claim, to be
compared with `RuleEngine.decide` above: score = +0.35 for a
case-insensitive extension match, plus `min(0.55, 0.20 + 0.12 × hits)`
when `hits ≥ 1` keywords occur as case-insensitive substrings of the
filename, plus +0.08 for the domain-mode boost; selection is a stable
scan where the first category to exceed the current best wins. -/

/-- Claim-side score of one category (spec §4.2 wording). -/
def specScore (domainMode : Bool) (filename ext : String) (tokens : List String)
    (cat : Category) : ℤ :=
  let extPart : ℤ := if ext ≠ "" ∧ ext ∈ cat.extensions.map strLower then (35 : ℤ) else 0
  let hits : Nat := ((cat.keywords.map (fun kw => strLower kw.trim)).filter
    (fun k => k ≠ "" ∧ strContains filename k = true)).length
  let kwPart : ℤ :=
    if 1 ≤ hits then min ((55 : ℤ)) ((20 : ℤ) + ((12 : ℤ)) * (hits : ℤ)) else 0
  let domPart : ℤ :=
    if domainMode = true ∧ tokens.any (fun t => decide (t ∈ eduVocab)) = true then (8 : ℤ)
    else 0
  extPart + kwPart + domPart

/-- Claim-side selection step: first-exceeds-current wins (stable scan). -/
def specFoldStep (domainMode : Bool) (filename ext : String) (tokens : List String)
    (acc : ℤ × Option Category) (cat : Category) : ℤ × Option Category :=
  let s := specScore domainMode filename ext tokens cat
  if s > acc.1 then (s, some cat) else acc

/-- Turn a selection outcome into the decision triple
(category name, destination, confidence) per the claim: winner if its score
reaches 0.35 with confidence clamped to [0, 0.99], otherwise the fallback
destination with fixed confidence 0.25. -/
def specDecisionOf (rules : Rules) (sel : ℤ × Option Category) : String × String × ℤ :=
  match sel.2 with
  | some c =>
    if sel.1 ≥ (35 : ℤ) then (c.name, c.destination, min ((99 : ℤ)) (max 0 sel.1))
    else ("Fallback", rules.fallback_destination, (25 : ℤ))
  | none => ("Fallback", rules.fallback_destination, (25 : ℤ))

/-- The claim exactly as stated: every declared category takes part in the
selection scan. -/
def specDecideClaim (rules : Rules) (fname : String) : String × String × ℤ :=
  let filename := strLower fname
  let ext := strLower (pathSplit fname).2
  let tokens := tokenize (strLower (pathSplit fname).1)
  specDecisionOf rules
    (rules.categories.foldl (specFoldStep rules.education_mode filename ext tokens) (0, none))

/-- The amended claim: only categories whose declared destination is
non-empty take part in the selection scan (the source's
`if destination and score > best_score`). -/
def specDecideFiltered (rules : Rules) (fname : String) : String × String × ℤ :=
  let filename := strLower fname
  let ext := strLower (pathSplit fname).2
  let tokens := tokenize (strLower (pathSplit fname).1)
  specDecisionOf rules
    ((rules.categories.filter (fun c => c.destination ≠ "")).foldl
      (specFoldStep rules.education_mode filename ext tokens) (0, none))

/-- Projection of a `RuleDecision` to the triple the claim describes. -/
def RuleDecision.triple (d : RuleDecision) : String × String × ℤ :=
  (d.category_name, d.destination_relative, d.confidence)

/-- Concrete rule set separating the claim from the code: one category whose
declared destination is the empty string but whose extension list matches. -/
def rulesCE : Rules :=
  ⟨false, [⟨"A", "", [], [".pdf"]⟩], "Misc"⟩

lemma scoreCat_fst_eq (em : Bool) (fn ext : String) (tks : List String) (cat : Category) :
    (scoreCat em fn ext tks cat).1 = specScore em fn ext tks cat := by
  simp only [scoreCat, specScore, Nat.one_le_iff_ne_zero, mul_comm]

/-- Relation between the source accumulator and the claim-side accumulator. -/
def accRel (acc : BestAcc) (sacc : ℤ × Option Category) : Prop :=
  acc.score = sacc.1 ∧
  match acc.best, sacc.2 with
  | none, none => True
  | some nd, some c => nd.1 = c.name ∧ nd.2 = c.destination
  | _, _ => False

lemma fold_rel (em : Bool) (fn ext : String) (tks : List String) :
    ∀ (cats : List Category) (acc : BestAcc) (sacc : ℤ × Option Category),
    accRel acc sacc →
    accRel (cats.foldl (decideFold em fn ext tks) acc)
      ((cats.filter (fun c => c.destination ≠ "")).foldl (specFoldStep em fn ext tks) sacc) := by
  intro cats
  induction cats with
  | nil => intro acc sacc h; simpa using h
  | cons cat rest ih =>
    intro acc sacc h
    by_cases hd : cat.destination = ""
    · have : (decide (cat.destination ≠ "")) = false := by simp [hd]
      simp only [List.filter_cons, this, if_neg, List.foldl_cons, Bool.false_eq_true,
        if_false]
      have hstep : decideFold em fn ext tks acc cat = acc := by
        simp [decideFold, hd]
      rw [hstep]
      exact ih acc sacc h
    · have : (decide (cat.destination ≠ "")) = true := by simp [hd]
      simp only [List.filter_cons, this, if_pos, List.foldl_cons]
      by_cases hs : (scoreCat em fn ext tks cat).1 > acc.score
      · have hstep : decideFold em fn ext tks acc cat =
            ⟨(scoreCat em fn ext tks cat).1, some (cat.name, cat.destination),
              (scoreCat em fn ext tks cat).2⟩ := by
          simp [decideFold, hd, hs]
        have hstep' : specFoldStep em fn ext tks sacc cat =
            (specScore em fn ext tks cat, some cat) := by
          have : specScore em fn ext tks cat > sacc.1 := by
            rw [← scoreCat_fst_eq, ← h.1]; exact hs
          simp [specFoldStep, this]
        rw [hstep, hstep']
        exact ih _ _ ⟨scoreCat_fst_eq em fn ext tks cat, rfl, rfl⟩
      · have hstep : decideFold em fn ext tks acc cat = acc := by
          simp only [decideFold]
          rw [if_neg]
          rintro ⟨-, h2⟩
          exact hs h2
        have hstep' : specFoldStep em fn ext tks sacc cat = sacc := by
          have : ¬ specScore em fn ext tks cat > sacc.1 := by
            rw [← scoreCat_fst_eq, ← h.1]; exact hs
          simp [specFoldStep, this]
        rw [hstep, hstep']
        exact ih acc sacc h

/-- Claim C5 (amended): `RuleEngine.decide` realises exactly the claim's
scoring formula and first-exceeds-current selection, with the single
amendment that only categories whose declared destination is non-empty take
part in the selection; threshold 0.35, fallback confidence 0.25 and the
[0, 0.99] clamp are as claimed. -/
theorem C5_classifier_scoring_amended (rules : Rules) (fname : String) :
    (RuleEngine.decide rules fname).triple = specDecideFiltered rules fname := by
  unfold RuleEngine.decide specDecideFiltered
  have h := fold_rel rules.education_mode (strLower fname)
    (strLower (pathSplit fname).2) (tokenize (strLower (pathSplit fname).1))
    rules.categories ⟨0, none, []⟩ (0, none) (by simp [accRel])
  obtain ⟨hsc, hb⟩ := h
  rcases hbest : (rules.categories.foldl
      (decideFold rules.education_mode (strLower fname) (strLower (pathSplit fname).2)
        (tokenize (strLower (pathSplit fname).1))) ⟨0, none, []⟩).best with _ | nd <;>
    rcases hspec : ((rules.categories.filter (fun c => c.destination ≠ "")).foldl
      (specFoldStep rules.education_mode (strLower fname) (strLower (pathSplit fname).2)
        (tokenize (strLower (pathSplit fname).1))) (0, none)).2 with _ | c <;>
    rw [hbest, hspec] at hb <;> simp only [accRel] at hb
  · simp only [specDecisionOf, hbest, hspec, RuleDecision.triple, hsc]
  · obtain ⟨hn, hdst⟩ := hb
    simp only [specDecisionOf, hbest, hspec]
    rw [hsc, hn, hdst]
    split_ifs <;> simp [RuleDecision.triple]

/-- Claim C5 counterexample: with one declared category whose destination is
the empty string but whose extension matches, the claim as stated would make
that category win with confidence 0.35, while the code skips it
(`if destination and score > best_score`) and returns the fallback with
confidence 0.25. -/
theorem C5_classifier_scoring_counterexample :
    (RuleEngine.decide rulesCE "x.pdf").triple ≠ specDecideClaim rulesCE "x.pdf" := by
  decide

/-! ## Theorems about the mover (claims C1, C4) -/

lemma copyFallback_preserves (o : MoveOracle) (fs : FS) (src dest p : FPath) (c : String)
    (hps : p ≠ src) (hp : fs p = some c) :
    (copyFallback o fs src dest).2 p = some c := by
  unfold copyFallback
  cases hsrc : fs src with
  | none => simpa using hp
  | some content =>
    by_cases hd : (fs dest).isSome
    · simpa [hd] using hp
    · have hpd : p ≠ dest := by
        rintro rfl
        rw [hp] at hd
        exact hd rfl
      by_cases hc : o.copyOk <;> by_cases hu : o.unlinkSrcAfterCopyOk <;>
        simp [hd, hc, hu, fsSet, hps, hpd, hp]

/-- Claim C1 (amended): the move primitive never overwrites: (1) if the
destination exists at call time, `_safe_move_file` raises `FileExistsError`
and the filesystem is unchanged; (2) in every execution, the content of any
existing path other than the source is preserved (the fallback copy creates
the destination with exclusive-create semantics, so it never clobbers); and
(3) the destination `organize_file` passes in, computed by
`generate_non_overwriting_path`, did not exist at computation time provided
the desired name or one of the 9 999 numbered variants was then free — the
amendment being this proviso: if all probed candidates are occupied, the
pid-suffixed last resort is returned without an existence check. -/
theorem C1_never_overwrites_amended :
    (∀ (o : MoveOracle) (fs : FS) (src dest : FPath) (c : String),
        fs dest = some c →
        safe_move_file o fs src dest = (.error .destExists, fs)) ∧
    (∀ (o : MoveOracle) (fs : FS) (src dest p : FPath) (c : String),
        p ≠ src → fs p = some c →
        (safe_move_file o fs src dest).2 p = some c) ∧
    (∀ (exs : FPath → Bool) (pid : Nat) (p : FPath),
        (exs p = false ∨ ∃ i, 1 ≤ i ∧ i ≤ 9999 ∧
          exs ⟨p.dir, numberedName (pathSplit p.name).1 i (pathSplit p.name).2⟩ = false) →
        exs (generate_non_overwriting_path exs pid p) = false) := by
  refine ⟨?_, ?_, ?_⟩
  · intro o fs src dest c h
    unfold safe_move_file
    simp [h]
  · intro o fs src dest p c hps hp
    by_cases hd : (fs dest).isSome
    · simpa [safe_move_file, hd] using hp
    · have hpd : p ≠ dest := by
        rintro rfl
        rw [hp] at hd
        exact hd rfl
      unfold safe_move_file
      rw [if_neg (by simp [hd])]
      cases hsrc : fs src with
      | none => exact copyFallback_preserves o fs src dest p c hps hp
      | some content =>
        by_cases hl : o.linkOk
        · by_cases hu : o.unlinkSrcAfterLinkOk
          · simp [hl, hu, fsSet, hps, hpd, hp]
          · by_cases hcl : o.unlinkDestCleanupOk <;>
              · simp only [hl, hu, hcl, if_true, if_false, Bool.false_eq_true]
                exact copyFallback_preserves o _ src dest p c hps
                  (by simp [fsSet, hps, hpd, hp])
        · simp only [hl, Bool.false_eq_true, if_false]
          exact copyFallback_preserves o fs src dest p c hps hp
  · intro exs pid p h
    unfold generate_non_overwriting_path
    by_cases hp : exs p = false
    · rw [if_pos hp]; exact hp
    · rw [if_neg hp]
      rcases h with h | ⟨i, h1, h2, h3⟩
      · exact absurd h hp
      · cases hf : (List.range' 1 9999).find?
            (fun j => exs ⟨p.dir, numberedName (pathSplit p.name).1 j (pathSplit p.name).2⟩ = false) with
        | some j =>
          have hj := List.find?_some hf
          simpa using hj
        | none =>
          exfalso
          have hmem : i ∈ List.range' 1 9999 := by
            simp only [List.mem_range'_1]
            omega
          have hni := List.find?_eq_none.mp hf i hmem
          simp [h3] at hni

/-- Claim C1 counterexample: in a filesystem state in which the desired
name and every numbered variant (indeed every path) exists,
`generate_non_overwriting_path` returns the pid-suffixed last resort
without re-checking, so the destination Organizer.organize_file would pass
in is a path that does exist at computation time — refuting the claim's
clause that it "did not exist when it was computed". -/
lemma gen_all_occupied (pid : Nat) (p : FPath) :
    generate_non_overwriting_path (fun _ => true) pid p =
      ⟨p.dir, numberedName (pathSplit p.name).1 pid (pathSplit p.name).2⟩ := by
  unfold generate_non_overwriting_path
  rw [if_neg (by simp)]
  rw [List.find?_eq_none.mpr (fun a _ => by simp)]

theorem C1_never_overwrites_counterexample :
    (fun _ => true : FPath → Bool)
        (generate_non_overwriting_path (fun _ => true) 42 ⟨"Downloads/Docs", "notes.pdf"⟩)
      = true ∧
    generate_non_overwriting_path (fun _ => true) 42 ⟨"Downloads/Docs", "notes.pdf"⟩
      = ⟨"Downloads/Docs", "notes (42).pdf"⟩ := by
  constructor
  · rfl
  · rw [gen_all_occupied]
    rfl

/-- Witness inputs for the mover theorems. -/
def destW : FPath := ⟨"Dest", "b.txt"⟩

def otherW : FPath := ⟨"Other", "keep.txt"⟩

def srcW : FPath := ⟨"Downloads", "b.txt"⟩

def fsW : FS := fun q => if q = destW then some "X" else if q = otherW then some "KEEP" else none

def oW : MoveOracle := ⟨true, true, true, true, "", true⟩

theorem C1_never_overwrites_amended_witness :
    safe_move_file oW fsW srcW destW = (.error .destExists, fsW) ∧
    (safe_move_file oW fsW srcW destW).2 otherW = some "KEEP" ∧
    (fun _ => false : FPath → Bool)
        (generate_non_overwriting_path (fun _ => false) 7 ⟨"d", "n.txt"⟩) = false :=
  ⟨C1_never_overwrites_amended.1 oW fsW srcW destW "X" (by decide),
   C1_never_overwrites_amended.2.1 oW fsW srcW destW otherW "KEEP" (by decide) (by decide),
   C1_never_overwrites_amended.2.2 (fun _ => false) 7 ⟨"d", "n.txt"⟩ (Or.inl rfl)⟩

/-- Claim C4 (amended): when the hard-link path fails and the fallback
streamed copy fails partway, `_safe_move_file` propagates the error and the
source file is left untouched in place, but the partially written
destination file remains on disk — the code performs no cleanup of it (the
amendment: the claim's "the partial destination file is deleted" does not
hold). -/
theorem C4_midcopy_cleanup_amended (o : MoveOracle) (fs : FS) (src dest : FPath) (c : String)
    (hl : o.linkOk = false) (hc : o.copyOk = false)
    (hs : fs src = some c) (hd : fs dest = none) :
    (safe_move_file o fs src dest).1 = .error .ioFailure ∧
    (safe_move_file o fs src dest).2 dest = some o.copyLeftover ∧
    (safe_move_file o fs src dest).2 src = some c := by
  have hsd : src ≠ dest := by
    rintro rfl
    rw [hs] at hd
    exact Option.noConfusion hd
  unfold safe_move_file copyFallback
  simp [hd, hs, hl, hc, fsSet, hsd, Ne.symm hsd]

/-- Claim C4 counterexample: a concrete mid-copy failure (link refused,
copy raises partway) leaves the partial destination content on disk —
refuting "the partial destination file is deleted (best-effort)"; the
source is indeed untouched. -/
theorem C4_midcopy_cleanup_counterexample :
    (safe_move_file ⟨false, false, false, false, "PARTIAL", false⟩
        (fun q => if q = srcW then some "DATA" else none) srcW destW).1 = .error .ioFailure ∧
    (safe_move_file ⟨false, false, false, false, "PARTIAL", false⟩
        (fun q => if q = srcW then some "DATA" else none) srcW destW).2 destW = some "PARTIAL" ∧
    (safe_move_file ⟨false, false, false, false, "PARTIAL", false⟩
        (fun q => if q = srcW then some "DATA" else none) srcW destW).2 srcW = some "DATA" := by
  refine ⟨?_, ?_, ?_⟩ <;> decide

theorem C4_midcopy_cleanup_amended_witness :
    (safe_move_file ⟨false, true, true, false, "HALF", true⟩
        (fun q => if q = srcW then some "BYTES" else none) srcW destW).1 = .error .ioFailure ∧
    (safe_move_file ⟨false, true, true, false, "HALF", true⟩
        (fun q => if q = srcW then some "BYTES" else none) srcW destW).2 destW = some "HALF" ∧
    (safe_move_file ⟨false, true, true, false, "HALF", true⟩
        (fun q => if q = srcW then some "BYTES" else none) srcW destW).2 srcW = some "BYTES" :=
  C4_midcopy_cleanup_amended ⟨false, true, true, false, "HALF", true⟩
    (fun q => if q = srcW then some "BYTES" else none) srcW destW "BYTES"
    rfl rfl (by decide) (by decide)

/-! ## Orchestrator: `Organizer.organize_file` as an event trace (claim C2)

Each externally visible action of one `organize_file` call is a `Step`, in
program order: log appends (`append_completed` for skip entries,
`append_planned` for the move entry, `log_error` for swallowed collaborator
errors), the destination-directory creation attempt, the `_safe_move_file`
call, and the `mark_completed` / `mark_failed` transition of the planned
entry (exactly one planned entry exists per call, so the mark steps carry
no id). Collaborator outcomes (rule engine, duplicate analyzer, rename
engine) and I/O check results are oracle inputs in `OrgEnv`. -/

inductive Step where
  | appendCompletedEntry (action reason src dest : String)
  | logErrorStep (context : String)
  | mkdirStep (dir : String)
  | appendPlannedMove (src dest : String)
  | fsMoveStep (src dest : String)
  | markCompletedStep
  | markFailedStep (err : String)
deriving DecidableEq, Repr

structure OrganizeResult where
  ok : Bool
  message : String
  destination : Option String
deriving DecidableEq, Repr

structure OrgEnv where
  srcExists : Bool
  isDir : Bool
  decideRaises : Bool
  baseAllowed : Bool
  dupEnabled : Bool
  dupRaises : Bool
  dupIsImage : Bool
  dupIsDuplicate : Bool
  dupDest : String
  renameEnabled : Bool
  renameRaises : Bool
  renameSug : Option (String × ℤ)
  renameThreshold : ℤ
  mkdirOk : Bool
  exs : FPath → Bool
  pid : Nat
  srcStillExists : Bool
  destAllowed : Bool
  moveRaises : Bool
  moveErrMsg : String

/-- `decision = self._decide_destination(file_path)`: the rule engine's
decision, or the hardcoded fallback decision when `decide` raises
(organizer.py `_decide_destination`). -/
def decisionOf (rules : Rules) (env : OrgEnv) (src : FPath) : RuleDecision :=
  if env.decideRaises then ⟨"Fallback", "Misc", 0, ["error"]⟩
  else RuleEngine.decide rules src.name

/-- The `log_error("rule_decision", ...)` append when the rule engine raised. -/
def decideStepsOf (env : OrgEnv) : List Step :=
  if env.decideRaises then [.logErrorStep "rule_decision"] else []

/-- The `log_error("duplicate_detection", ...)` append when the duplicate
analyzer raised (swallowed, no override). -/
def dupStepsOf (env : OrgEnv) : List Step :=
  if env.dupEnabled ∧ env.dupRaises then [.logErrorStep "duplicate_detection"] else []

/-- `destination_relative`, overridden to the duplicates bucket on an
affirmative near-duplicate verdict for an image. -/
def destinationRelativeOf (rules : Rules) (env : OrgEnv) (src : FPath) : String :=
  if env.dupEnabled ∧ ¬env.dupRaises ∧ env.dupIsImage ∧ env.dupIsDuplicate then env.dupDest
  else (decisionOf rules env src).destination_relative

/-- The `log_error("rename_suggestion", ...)` append when the rename engine
raised (swallowed, no rename). -/
def renStepsOf (env : OrgEnv) : List Step :=
  if env.renameEnabled ∧ env.renameRaises then [.logErrorStep "rename_suggestion"] else []

/-- `dest_filename`: the sanitized source name, replaced by the rename
suggestion only when rename is enabled, did not raise, produced a
suggestion, and its confidence reaches the threshold. -/
def destFilenameOf (env : OrgEnv) (src : FPath) : String :=
  if env.renameEnabled ∧ ¬env.renameRaises then
    match env.renameSug with
    | some nc => if env.renameThreshold ≤ nc.2 then nc.1 else sanitize_filename src.name
    | none => sanitize_filename src.name
  else sanitize_filename src.name

/-- `dest_dir = base_dest / destination_relative`. -/
def destDirOf (rules : Rules) (env : OrgEnv) (baseDest : String) (src : FPath) : String :=
  baseDest ++ "/" ++ destinationRelativeOf rules env src

/-- `dest_path = generate_non_overwriting_path(dest_dir / dest_filename)`. -/
def destPathOf (rules : Rules) (env : OrgEnv) (baseDest : String) (src : FPath) : FPath :=
  generate_non_overwriting_path env.exs env.pid
    ⟨destDirOf rules env baseDest src, destFilenameOf env src⟩

/-- The steps logged before the planned append: swallowed collaborator
errors and the destination-directory creation attempt. -/
def preOf (rules : Rules) (env : OrgEnv) (baseDest : String) (src : FPath) : List Step :=
  decideStepsOf env ++ dupStepsOf env ++ renStepsOf env ++
    [.mkdirStep (destDirOf rules env baseDest src)]

/-- `Organizer.organize_file(file_path)` — result and trace of steps.
`baseDest` is the resolved base destination root, `src` the resolved file
path. Mirrors organizer.py lines 362–479 step for step. -/
def organize_file (rules : Rules) (env : OrgEnv) (baseDest : String) (src : FPath) :
    OrganizeResult × List Step :=
  if env.srcExists = false then
    (⟨false, "File missing.", none⟩,
      [.appendCompletedEntry "skip" "missing" src.render ""])
  else if env.isDir = true then
    (⟨false, "Ignored directory.", none⟩,
      [.appendCompletedEntry "skip" "directory" src.render ""])
  else if env.baseAllowed = false then
    (⟨false, "Blocked destination.", none⟩,
      decideStepsOf env ++
        [.appendCompletedEntry "skip" "base_destination_not_allowed" src.render baseDest])
  else if env.mkdirOk = false then
    (⟨false, "Failed to create destination.", none⟩,
      decideStepsOf env ++ dupStepsOf env ++ renStepsOf env ++
        [.mkdirStep (destDirOf rules env baseDest src),
         .appendCompletedEntry "skip" "mkdir_failed" src.render
           (destDirOf rules env baseDest src)])
  else if env.srcStillExists = false then
    (⟨false, "Source disappeared.", none⟩,
      preOf rules env baseDest src ++
        [.appendPlannedMove src.render (destPathOf rules env baseDest src).render,
         .markFailedStep "Source file disappeared before move."])
  else if env.destAllowed = false then
    (⟨false, "Blocked destination.", none⟩,
      preOf rules env baseDest src ++
        [.appendPlannedMove src.render (destPathOf rules env baseDest src).render,
         .markFailedStep "Destination path validation failed."])
  else if env.moveRaises = true then
    (⟨false, "Move failed.", none⟩,
      preOf rules env baseDest src ++
        [.appendPlannedMove src.render (destPathOf rules env baseDest src).render,
         .fsMoveStep src.render (destPathOf rules env baseDest src).render,
         .markFailedStep env.moveErrMsg])
  else
    (⟨true, "Moved safely.", some (destPathOf rules env baseDest src).render⟩,
      preOf rules env baseDest src ++
        [.appendPlannedMove src.render (destPathOf rules env baseDest src).render,
         .fsMoveStep src.render (destPathOf rules env baseDest src).render,
         .markCompletedStep])

/-- Step classifiers for the ordering theorem. -/
def Step.isFsMove : Step → Bool
  | .fsMoveStep _ _ => true
  | _ => false

def Step.isMark : Step → Bool
  | .markCompletedStep => true
  | .markFailedStep _ => true
  | _ => false

def Step.isPlanned : Step → Bool
  | .appendPlannedMove _ _ => true
  | _ => false

/-- A trace segment containing no move, no status mark, and no planned
entry. -/
def preClean (l : List Step) : Bool :=
  l.all fun st => !(st.isFsMove || st.isMark || st.isPlanned)

lemma preClean_decideSteps (env : OrgEnv) : preClean (decideStepsOf env) = true := by
  unfold decideStepsOf; split_ifs <;> rfl

lemma preClean_dupSteps (env : OrgEnv) : preClean (dupStepsOf env) = true := by
  unfold dupStepsOf; split_ifs <;> rfl

lemma preClean_renSteps (env : OrgEnv) : preClean (renStepsOf env) = true := by
  unfold renStepsOf; split_ifs <;> rfl

lemma preClean_append (a b : List Step) : preClean (a ++ b) = (preClean a && preClean b) := by
  simp [preClean, List.all_append]

lemma preClean_preOf (rules : Rules) (env : OrgEnv) (baseDest : String) (src : FPath) :
    preClean (preOf rules env baseDest src) = true := by
  unfold preOf
  simp [preClean_append, preClean_decideSteps, preClean_dupSteps, preClean_renSteps]
  rfl

lemma noMove_of_preClean (l : List Step) (h : preClean l = true) :
    l.all (fun st => !st.isFsMove) = true := by
  simp only [preClean, List.all_eq_true] at h ⊢
  intro st hst
  have := h st hst
  simp only [Bool.not_or, Bool.and_eq_true] at this
  exact this.1.1

/-- Claim C2: log-before-act ordering. Every `organize_file` execution either
never attempts the move, or its trace decomposes as
`pre ++ [planned src dest, move src dest, mark]` where `pre` contains no
move, no status mark and no planned entry: the `planned` entry recording
exactly the move's source and destination is appended strictly before the
move is attempted, and the single `completed`/`failed` mark of that entry
comes strictly after the move's outcome is known. (The only filesystem
action inside `pre` is the idempotent destination-directory creation, which
the specification itself sequences before the planned append, §4.4 steps
6–7.) -/
theorem C2_log_before_act (rules : Rules) (env : OrgEnv) (baseDest : String) (src : FPath) :
    ((organize_file rules env baseDest src).2.all (fun st => !st.isFsMove) = true) ∨
    (∃ pre s d last,
      (organize_file rules env baseDest src).2 =
        pre ++ [.appendPlannedMove s d, .fsMoveStep s d, last] ∧
      preClean pre = true ∧ last.isMark = true) := by
  unfold organize_file
  by_cases h1 : env.srcExists = false
  · rw [if_pos h1]; exact Or.inl rfl
  rw [if_neg h1]
  by_cases h2 : env.isDir = true
  · rw [if_pos h2]; exact Or.inl rfl
  rw [if_neg h2]
  by_cases h3 : env.baseAllowed = false
  · rw [if_pos h3]
    refine Or.inl ?_
    rw [List.all_append, Bool.and_eq_true]
    exact ⟨noMove_of_preClean _ (preClean_decideSteps env), rfl⟩
  rw [if_neg h3]
  by_cases h4 : env.mkdirOk = false
  · rw [if_pos h4]
    refine Or.inl ?_
    simp only [List.append_assoc, List.all_append, Bool.and_eq_true]
    exact ⟨noMove_of_preClean _ (preClean_decideSteps env),
      noMove_of_preClean _ (preClean_dupSteps env),
      noMove_of_preClean _ (preClean_renSteps env), rfl⟩
  rw [if_neg h4]
  by_cases h5 : env.srcStillExists = false
  · rw [if_pos h5]
    refine Or.inl ?_
    rw [List.all_append, Bool.and_eq_true]
    exact ⟨noMove_of_preClean _ (preClean_preOf rules env baseDest src), rfl⟩
  rw [if_neg h5]
  by_cases h6 : env.destAllowed = false
  · rw [if_pos h6]
    refine Or.inl ?_
    rw [List.all_append, Bool.and_eq_true]
    exact ⟨noMove_of_preClean _ (preClean_preOf rules env baseDest src), rfl⟩
  rw [if_neg h6]
  by_cases h7 : env.moveRaises = true
  · rw [if_pos h7]
    exact Or.inr ⟨preOf rules env baseDest src, src.render,
      (destPathOf rules env baseDest src).render, .markFailedStep env.moveErrMsg,
      rfl, preClean_preOf rules env baseDest src, rfl⟩
  rw [if_neg h7]
  exact Or.inr ⟨preOf rules env baseDest src, src.render,
    (destPathOf rules env baseDest src).render, .markCompletedStep,
    rfl, preClean_preOf rules env baseDest src, rfl⟩

/-! ## ActivityLog (`organizer.py`)

Log entries are JSON objects; the embedding types the fields the code
reads. `timestamp` is the parsed UTC timestamp (`_parse_utc_timestamp`
result) in seconds, `none` when missing or unparsable. `source` /
`destination` are `none` when the field is absent or not a string
(`isinstance(..., str)` checks). -/

structure Entry where
  id : Nat := 0
  timestamp : Option Int := none
  status : String := ""
  action_type : String := ""
  source : Option String := none
  destination : Option String := none
  undone : Bool := false
  undo_action_id : Option Nat := none
deriving DecidableEq, Repr

/-- `ActivityLog.list(limit)`: `entries` if `limit <= 0` else
`entries[-limit:]` (the last `limit` entries, all of them when the log is
shorter). -/
def ActivityLog.list (entries : List Entry) (limit : Int) : List Entry :=
  if limit ≤ 0 then entries
  else entries.drop (entries.length - limit.toNat)

/-! ### `_read_entries_unlocked` (claim C9)

The persisted document as the read sees it: the read may raise
(`read_text` fails), the parse may raise (`json.loads` fails — note an
empty file is read as `"[]"` first), or the parse may succeed with either
a JSON list of entries or any non-list value. -/

inductive LogDoc where
  | readRaises
  | parseRaises
  | parsedList (entries : List Entry)
  | parsedNonList
deriving DecidableEq, Repr

/-- `ActivityLog._read_entries_unlocked`: any exception or non-list document
yields the empty entry list. -/
def ActivityLog.read_entries : LogDoc → List Entry
  | .readRaises => []
  | .parseRaises => []
  | .parsedList es => es
  | .parsedNonList => []

/-- An append (`append_planned` / `append_completed`) re-reads the document
and atomically rewrites it with the record appended: the written list. -/
def ActivityLog.append_doc (doc : LogDoc) (record : Entry) : List Entry :=
  ActivityLog.read_entries doc ++ [record]

/-! ### `compute_insights` (claim C7)

The clutter-reduction percentage is a Python float; it is embedded as an
exact rational, with `round(x, 2)` embedded as exact round-half-even to two
decimal places (`round2`). `startOfDay` abstracts the start of the current
UTC day computed from `now`. The `most_common(20)` presentation of the
file-type histogram is not modelled; the histogram's raw data (the suffix
of each completed move's destination) is kept as a list. -/

/-- Python `round()` tie-breaking: round half to even, to an integer. -/
def roundHalfEven (q : ℚ) : ℤ :=
  let f := ⌊q⌋
  if q - f < 1/2 then f
  else if (1 : ℚ)/2 < q - f then f + 1
  else if f % 2 = 0 then f else f + 1

/-- `round(x, 2)`. -/
def round2 (q : ℚ) : ℚ := (roundHalfEven (q * 100) : ℚ) / 100

/-- Python `Path(dest).name`: the last `/`-separated component. -/
def lastComponent (s : String) : String := (s.splitOn "/").getLastD s

/-- `Path(dest).suffix.lower() if dest else ""`. -/
def extOfDest (dest : String) : String :=
  if dest = "" then "" else strLower (pathSplit (lastComponent dest)).2

structure InsAcc where
  moved : Nat
  movedToday : Nat
  exts : List String
  skipped : Nat
  errors : Nat
deriving DecidableEq, Repr

/-- One iteration of the `compute_insights` scan: `error` entries first
(counted whatever their status), then `skip` entries, then completed
moves. -/
def insStep (startOfDay : Int) (acc : InsAcc) (e : Entry) : InsAcc :=
  if e.action_type = "error" then { acc with errors := acc.errors + 1 }
  else if e.action_type = "skip" then { acc with skipped := acc.skipped + 1 }
  else if e.action_type ≠ "move" ∨ e.status ≠ "completed" then acc
  else
    let dest := e.destination.getD ""
    let ext := extOfDest dest
    { acc with
      moved := acc.moved + 1
      movedToday :=
        match e.timestamp with
        | some ts => if startOfDay ≤ ts then acc.movedToday + 1 else acc.movedToday
        | none => acc.movedToday
      exts := if ext ≠ "" then acc.exts ++ [ext] else acc.exts }

structure Insights where
  moved_total : Nat
  moved_today : Nat
  estimated_time_saved_seconds : Nat
  file_type_tally : List String
  clutter_percent : ℚ
  errors_logged : Nat
deriving DecidableEq, Repr

/-- `ActivityLog.compute_insights()`. -/
def ActivityLog.compute_insights (startOfDay : Int) (entries : List Entry) : Insights :=
  let acc := entries.foldl (insStep startOfDay) ⟨0, 0, [], 0, 0⟩
  let totalEvents := acc.moved + acc.skipped
  { moved_total := acc.moved
    moved_today := acc.movedToday
    estimated_time_saved_seconds := acc.moved * 30
    file_type_tally := acc.exts
    clutter_percent :=
      if totalEvents = 0 then 0
      else round2 ((acc.moved : ℚ) / (totalEvents : ℚ) * 100)
    errors_logged := acc.errors }

/-! ### `undo_last_24h` (claims C3, C6)

`self._lock` is a non-reentrant `threading.Lock` (organizer.py line 49).
`undo_last_24h` executes its whole body inside `with self._lock:`
(line 183); every path that found an undo candidate then calls
`self.append_planned(...)` (lines 208, 221, 237), whose body starts with
`with self._lock:` (line 67) — a second acquire of a lock the same thread
already holds, which blocks forever. The model threads the lock state and
records that situation as `deadlock` (carrying the state at block time:
nothing has been appended, no `undone` flag touched, since `append_planned`
blocks before writing). -/

structure LogState where
  entries : List Entry
  locked : Bool
deriving DecidableEq, Repr

/-- Filesystem/validation oracles used by `undo_last_24h`. -/
structure UndoEnv where
  fsExists : String → Bool
  validOk : String → Bool

/-- The candidate filter of the newest-first scan: `completed`, `move`, not
already undone, parsed timestamp within the window, string source and
destination. -/
def undoPred (cutoff : Int) (e : Entry) : Bool :=
  (e.status == "completed") && (e.action_type == "move") && (!e.undone) &&
  (match e.timestamp with | some ts => decide (cutoff ≤ ts) | none => false) &&
  e.source.isSome && e.destination.isSome

/-- `for e in reversed(entries): ... target = e; break`. -/
def findUndoTarget (cutoff : Int) (entries : List Entry) : Option Entry :=
  entries.reverse.find? (undoPred cutoff)

inductive UndoOutcome where
  | returns (ok : Bool) (message : String) (st : LogState)
  | deadlock (st : LogState)
deriving DecidableEq, Repr

/-- `ActivityLog.undo_last_24h(allowed_roots)`. -/
def undo_last_24h (uenv : UndoEnv) (cutoff : Int) (st : LogState) : UndoOutcome :=
  if st.locked then .deadlock st
  else
    match findUndoTarget cutoff st.entries with
    | none => .returns false "No undoable actions in the last 24 hours." ⟨st.entries, false⟩
    | some target =>
      let src := target.source.getD ""
      let dest := target.destination.getD ""
      if uenv.fsExists dest = false then
        -- `undo_id = self.append_planned({...})`: second acquire of the held
        -- lock — blocks forever before the failed undo entry can be appended.
        .deadlock ⟨st.entries, true⟩
      else if uenv.validOk src = false ∨ uenv.validOk dest = false then
        -- same `append_planned` second acquire — blocks forever.
        .deadlock ⟨st.entries, true⟩
      else
        -- restore path would be computed here, then `append_planned` — the
        -- same second acquire — blocks forever before any reverse move.
        .deadlock ⟨st.entries, true⟩

/-! ## Theorems about the ActivityLog -/

/-- A fresh, perfectly undoable completed move entry. -/
def mvEntry : Entry :=
  { id := 1, timestamp := some 1000, status := "completed", action_type := "move",
    source := some "/home/u/Downloads/a.pdf",
    destination := some "/home/u/Downloads/SilentOrganizer/Docs/a.pdf" }

/-- Oracles for the undo scenarios. -/
def uenvAllOk : UndoEnv := ⟨fun _ => true, fun _ => true⟩

def uenvDestMissing : UndoEnv := ⟨fun _ => false, fun _ => true⟩

/-- Claim C3 is what the code intends (its own module docstring promises
"Supports undo for the last 24 hours" and `scripts/deep_debug.py` asserts a
fresh move can be undone), but the code cannot perform it: with a perfectly
undoable entry present — `completed` `move`, within the window, destination
still existing, validation passing — `undo_last_24h` selects it and then
deadlocks (`append_planned` re-acquires the non-reentrant lock the
surrounding `with self._lock:` already holds), never restoring the file nor
setting `undone`. Only the no-candidate path returns, with the
nothing-to-undo message. -/
theorem C3_undo_deadlock_code_bug :
    findUndoTarget 0 [mvEntry] = some mvEntry ∧
    undo_last_24h uenvAllOk 0 ⟨[mvEntry], false⟩ = .deadlock ⟨[mvEntry], true⟩ ∧
    undo_last_24h uenvAllOk 0 ⟨[], false⟩ =
      .returns false "No undoable actions in the last 24 hours." ⟨[], false⟩ := by
  refine ⟨?_, ?_, ?_⟩ <;> rfl

/-- Claim C6 describes the intended failure handling (log a `failed` undo
entry with a specific reason and report failure), but the code cannot reach
it: when the candidate's destination no longer exists, the very call that
would append the failed undo entry (`append_planned`) re-acquires the held
non-reentrant lock and blocks forever — nothing is appended (the log
document still holds exactly the original entry, whose `undone` flag is
untouched only because the call never returns at all). -/
theorem C6_undo_failure_deadlock_code_bug :
    findUndoTarget 0 [mvEntry] = some mvEntry ∧
    undo_last_24h uenvDestMissing 0 ⟨[mvEntry], false⟩ = .deadlock ⟨[mvEntry], true⟩ ∧
    (match undo_last_24h uenvDestMissing 0 ⟨[mvEntry], false⟩ with
      | .returns _ _ s => s.entries
      | .deadlock s => s.entries) = [mvEntry] := by
  refine ⟨?_, ?_, ?_⟩ <;> rfl

/-- Claim C9: every read of the persisted log goes through
`_read_entries_unlocked`, which turns an unreadable, unparsable, or
non-list document into the empty entry list without raising, and the next
successful append rewrites the document as the singleton list holding the
new record. -/
theorem C9_corrupt_log_reads_empty (doc : LogDoc) (record : Entry)
    (h : doc = .readRaises ∨ doc = .parseRaises ∨ doc = .parsedNonList) :
    ActivityLog.read_entries doc = [] ∧
    ActivityLog.append_doc doc record = [record] := by
  rcases h with h | h | h <;> subst h <;> exact ⟨rfl, rfl⟩

theorem C9_corrupt_log_reads_empty_witness :
    ActivityLog.read_entries .parseRaises = [] ∧
    ActivityLog.append_doc .parseRaises mvEntry = [mvEntry] :=
  C9_corrupt_log_reads_empty .parseRaises mvEntry (Or.inr (Or.inl rfl))

/-- Claim C10: `ActivityLog.list(limit)` returns the whole entry sequence
when `limit ≤ 0` (not an error, not empty), and for `limit > 0` a suffix of
the log — the last `limit` entries in log order (all of them when the log
is shorter). -/
theorem C10_list_limit (entries : List Entry) (limit : Int) :
    (limit ≤ 0 → ActivityLog.list entries limit = entries) ∧
    (0 < limit →
      ActivityLog.list entries limit <:+ entries ∧
      (ActivityLog.list entries limit).length = min limit.toNat entries.length) := by
  constructor
  · intro h
    simp [ActivityLog.list, h]
  · intro h
    have hn : ¬ limit ≤ 0 := by omega
    refine ⟨?_, ?_⟩
    · simp only [ActivityLog.list, hn, if_false]
      exact List.drop_suffix _ _
    · simp only [ActivityLog.list, hn, if_false, List.length_drop]
      omega

def entA : Entry := { id := 10, action_type := "event" }

def entB : Entry := { id := 11, action_type := "skip" }

def entC : Entry := { id := 12, action_type := "move" }

theorem C10_list_limit_witness :
    (ActivityLog.list [entA, entB, entC] (-1) = [entA, entB, entC]) ∧
    (ActivityLog.list [entA, entB, entC] 2 <:+ [entA, entB, entC] ∧
      (ActivityLog.list [entA, entB, entC] 2).length =
        min (Int.toNat 2) [entA, entB, entC].length) :=
  ⟨(C10_list_limit [entA, entB, entC] (-1)).1 (by decide),
   (C10_list_limit [entA, entB, entC] 2).2 (by decide)⟩

lemma insStep_moved (sod : Int) (acc : InsAcc) (e : Entry) :
    (insStep sod acc e).moved =
      acc.moved + (if e.action_type = "move" ∧ e.status = "completed" then 1 else 0) := by
  unfold insStep
  split_ifs <;> simp_all

lemma insStep_skipped (sod : Int) (acc : InsAcc) (e : Entry) :
    (insStep sod acc e).skipped =
      acc.skipped + (if e.action_type = "skip" then 1 else 0) := by
  unfold insStep
  split_ifs <;> simp_all

/-- The `compute_insights` scan counts exactly the completed moves. -/
lemma foldl_insStep_moved (sod : Int) :
    ∀ (entries : List Entry) (acc : InsAcc),
    (entries.foldl (insStep sod) acc).moved =
      acc.moved +
        entries.countP (fun e => decide (e.action_type = "move" ∧ e.status = "completed")) := by
  intro entries
  induction entries with
  | nil => intro acc; simp
  | cons e rest ih =>
    intro acc
    rw [List.foldl_cons, List.countP_cons, ih (insStep sod acc e), insStep_moved]
    by_cases hc : e.action_type = "move" ∧ e.status = "completed" <;> (simp [hc]; try omega)

/-- The `compute_insights` scan counts exactly the skip entries. -/
lemma foldl_insStep_skipped (sod : Int) :
    ∀ (entries : List Entry) (acc : InsAcc),
    (entries.foldl (insStep sod) acc).skipped =
      acc.skipped + entries.countP (fun e => decide (e.action_type = "skip")) := by
  intro entries
  induction entries with
  | nil => intro acc; simp
  | cons e rest ih =>
    intro acc
    rw [List.foldl_cons, List.countP_cons, ih (insStep sod acc e), insStep_skipped]
    by_cases hc : e.action_type = "skip" <;> (simp [hc]; try omega)

/-- Claim C7 (amended): for every log content, `moved_total` equals the
number of entries with action `move` and status `completed`, and the
clutter-reduction percentage equals
completed-moves / (completed-moves + skips) × 100 **rounded to two decimal
places** (Python `round(x, 2)`, round-half-even), with 0 when
completed-moves + skips is 0 — the amendment being the rounding, which the
claim's "equal to the formula" omits. -/
theorem C7_insights_amended (startOfDay : Int) (entries : List Entry) :
    (ActivityLog.compute_insights startOfDay entries).moved_total =
      entries.countP (fun e => decide (e.action_type = "move" ∧ e.status = "completed")) ∧
    (ActivityLog.compute_insights startOfDay entries).clutter_percent =
      (if entries.countP (fun e => decide (e.action_type = "move" ∧ e.status = "completed")) +
          entries.countP (fun e => decide (e.action_type = "skip")) = 0 then 0
       else round2
        ((entries.countP (fun e => decide (e.action_type = "move" ∧ e.status = "completed")) : ℚ) /
          ((entries.countP (fun e => decide (e.action_type = "move" ∧ e.status = "completed")) +
            entries.countP (fun e => decide (e.action_type = "skip")) : Nat) : ℚ) * 100)) := by
  have hm := foldl_insStep_moved startOfDay entries ⟨0, 0, [], 0, 0⟩
  have hs := foldl_insStep_skipped startOfDay entries ⟨0, 0, [], 0, 0⟩
  simp only [Nat.zero_add] at hm hs
  simp only [ActivityLog.compute_insights]
  rw [hm, hs]
  exact ⟨rfl, rfl⟩

def skipE2 : Entry := { id := 13, action_type := "skip", status := "completed" }

/-- Claim C7 counterexample: one completed move and two skips. The claim's
formula gives 1/3 × 100 = 100/3 %, but `compute_insights` returns
`round(100/3, 2) = 33.33` % — the returned percentage is the formula
rounded to two decimals, not the formula itself. `moved_total` is as the
claim states. -/
theorem C7_insights_counterexample :
    (ActivityLog.compute_insights 0 [mvEntry, entB, skipE2]).moved_total = 1 ∧
    (ActivityLog.compute_insights 0 [mvEntry, entB, skipE2]).clutter_percent = 3333/100 ∧
    ((3333 : ℚ)/100) ≠ ((1 : ℚ)/3) * 100 := by
  refine ⟨rfl, ?_, by norm_num⟩
  have h1 : (ActivityLog.compute_insights 0 [mvEntry, entB, skipE2]).clutter_percent =
      round2 (((1 : Nat) : ℚ) / ((3 : Nat) : ℚ) * 100) := rfl
  rw [h1]
  norm_num [round2, roundHalfEven]

/-! ## FileWatcher (`file_watcher.py`) — claim C8

`_wait_until_stable` polls `path.stat().st_size` against a wall clock; the
embedding uses milliseconds: the 0.25 s sleeps are 250, the 0.35 s sleep is
350, and `stability_seconds` / `max_wait_seconds` are `stab` / `maxW` (so
scenario B is `stab = 1500`, `maxW = 60000`). `sizeAt t` is the observation
a poll at time `t` makes (file missing, `stat` raising, or a size);
`stopped t` is the stop event's state at `t`. The function also returns
the chronological list of polls it made, so the claim's "observed size" is
stated about exactly the polls the loop performed. Note the code keeps
`last_size` and `stable_since` across missing/raising polls, so those do
not interrupt a stability window.

The loop is embedded with a fuel parameter for structural recursion; since
every iteration advances the clock by at least 250 ms while the `while`
guard requires `t < maxW`, any fuel with `maxW ≤ t + 250 * fuel` is beyond
the last iteration the guard admits, and `waitGo_fuel_irrelevant` proves
the result is then independent of the fuel — `wait_until_stable` uses
`fuel = maxW`, which satisfies the bound from `t = 0`. -/

inductive SizeObs where
  | missing
  | statRaises
  | size (n : Nat)
deriving DecidableEq, Repr

/-- `FileWatcher._wait_until_stable` from an arbitrary loop state: current
time `t`, `last_size`, `stable_since`. Returns whether the file was
declared stable, and the polls made. -/
def waitGo (stab maxW : Nat) (sizeAt : Nat → SizeObs) (stopped : Nat → Bool) :
    Nat → Nat → Option Nat → Option Nat → Bool × List (Nat × SizeObs)
  | 0, _, _, _ => (false, [])
  | fuel + 1, t, lastSize, stableSince =>
    if t < maxW ∧ stopped t = false then
      match sizeAt t with
      | .missing =>
        let r := waitGo stab maxW sizeAt stopped fuel (t + 250) lastSize stableSince
        (r.1, (t, .missing) :: r.2)
      | .statRaises =>
        let r := waitGo stab maxW sizeAt stopped fuel (t + 250) lastSize stableSince
        (r.1, (t, .statRaises) :: r.2)
      | .size n =>
        if lastSize = some n then
          if stab ≤ t - stableSince.getD t then (true, [(t, .size n)])
          else
            let r := waitGo stab maxW sizeAt stopped fuel (t + 250) (some n)
              (some (stableSince.getD t))
            (r.1, (t, .size n) :: r.2)
        else
          let r := waitGo stab maxW sizeAt stopped fuel (t + 350) (some n) none
          (r.1, (t, .size n) :: r.2)
    else (false, [])

/-- Enough fuel to outlast the `while` guard makes the fuel irrelevant: the
embedding's fuel is an artifact, not a behaviour. -/
lemma waitGo_fuel_irrelevant (stab maxW : Nat) (sizeAt : Nat → SizeObs)
    (stopped : Nat → Bool) :
    ∀ (f g t : Nat) (lastSize stableSince : Option Nat),
    maxW ≤ t + 250 * f → maxW ≤ t + 250 * g →
    waitGo stab maxW sizeAt stopped f t lastSize stableSince =
      waitGo stab maxW sizeAt stopped g t lastSize stableSince := by
  intro f
  induction f with
  | zero =>
    intro g t lastSize stableSince hf hg
    cases g with
    | zero => rfl
    | succ g =>
      rw [waitGo, waitGo]
      rw [if_neg (by omega)]
  | succ f ih =>
    intro g t lastSize stableSince hf hg
    cases g with
    | zero =>
      rw [waitGo, waitGo]
      rw [if_neg (by omega)]
    | succ g =>
      rw [waitGo, waitGo]
      by_cases hguard : t < maxW ∧ stopped t = false
      · rw [if_pos hguard, if_pos hguard]
        cases hobs : sizeAt t with
        | missing =>
          have hrec := ih g (t + 250) lastSize stableSince (by omega) (by omega)
          simp only [hrec]
        | statRaises =>
          have hrec := ih g (t + 250) lastSize stableSince (by omega) (by omega)
          simp only [hrec]
        | size n =>
          by_cases hlast : lastSize = some n
          · by_cases hstab : stab ≤ t - stableSince.getD t
            · simp only [hlast, eq_self_iff_true, if_true, hstab, ite_true]
            · have hrec := ih g (t + 250) (some n) (some (stableSince.getD t))
                (by omega) (by omega)
              simp only [hlast, eq_self_iff_true, if_true, hstab, ite_false, if_neg,
                ite_true, hrec]
          · have hrec := ih g (t + 350) (some n) none (by omega) (by omega)
            simp only [hlast, ite_false, if_neg, hrec]
      · rw [if_neg hguard, if_neg hguard]

/-- `_wait_until_stable(path)` as called by the worker: polling starts at
time 0 with no previous size. -/
def FileWatcher.wait_until_stable (stab maxW : Nat) (sizeAt : Nat → SizeObs)
    (stopped : Nat → Bool) : Bool × List (Nat × SizeObs) :=
  waitGo stab maxW sizeAt stopped maxW 0 none none

/-- One `_worker_loop` handling of a dequeued event: the `on_stable_file`
callback is invoked only when `_wait_until_stable` returned true; any
exception is swallowed (`except Exception: pass`), so the handling itself
raises nothing. -/
def FileWatcher.worker_handle (stab maxW : Nat) (sizeAt : Nat → SizeObs)
    (stopped : Nat → Bool) : List String :=
  if (FileWatcher.wait_until_stable stab maxW sizeAt stopped).1 then ["on_stable_file"] else []

/-- Does the poll list extend a run of observations equal to `n` begun at
time `start` until a poll at least `stab` later? Missing/raising polls do
not break a run, a differing size does. -/
def runFrom (stab start n : Nat) : List (Nat × SizeObs) → Bool
  | [] => false
  | (t, o) :: rest =>
    match o with
    | .missing => runFrom stab start n rest
    | .statRaises => runFrom stab start n rest
    | .size m =>
      if m = n then (if stab ≤ t - start then true else runFrom stab start n rest)
      else false

/-- Does the poll list contain a stable window: a size poll from which the
same size keeps being observed until a poll at least `stab` later? (A
single size poll is already such a window when `stab = 0`.) -/
def hasStableRun (stab : Nat) : List (Nat × SizeObs) → Bool
  | [] => false
  | (t, o) :: rest =>
    (match o with
     | .size n => decide (stab = 0) || runFrom stab t n rest
     | _ => false) || hasStableRun stab rest

lemma hasStableRun_tail (stab : Nat) (t : Nat) (o : SizeObs) (rest : List (Nat × SizeObs))
    (h : hasStableRun stab rest = true) :
    hasStableRun stab ((t, o) :: rest) = true := by
  cases o <;> simp [hasStableRun, h]

lemma hasStableRun_head (stab t n : Nat) (rest : List (Nat × SizeObs))
    (h : runFrom stab t n rest = true) :
    hasStableRun stab ((t, .size n) :: rest) = true := by
  rw [hasStableRun]
  simp [h]

/-- Inductive invariant tying the loop state to its future polls: if the
loop declares stability, then either the run begun at `stable_since` (with
size `last_size`) extends over a full window within the future polls, or
the future polls contain a full stable window on their own. -/
def runConcl (stab : Nat) (lastSize stableSince : Option Nat)
    (tr : List (Nat × SizeObs)) : Prop :=
  match stableSince, lastSize with
  | some s, some n => runFrom stab s n tr = true ∨ hasStableRun stab tr = true
  | _, _ => hasStableRun stab tr = true

lemma runConcl_of_hasRun (stab : Nat) (lastSize stableSince : Option Nat)
    (tr : List (Nat × SizeObs)) (h : hasStableRun stab tr = true) :
    runConcl stab lastSize stableSince tr := by
  rcases stableSince with _ | s <;> rcases lastSize with _ | n <;> simp only [runConcl]
  · exact h
  · exact h
  · exact h
  · exact Or.inr h

lemma runConcl_cons_skip (stab : Nat) (lastSize stableSince : Option Nat) (t : Nat)
    (o : SizeObs) (ho : o = .missing ∨ o = .statRaises) (tr : List (Nat × SizeObs))
    (h : runConcl stab lastSize stableSince tr) :
    runConcl stab lastSize stableSince ((t, o) :: tr) := by
  rcases stableSince with _ | s <;> rcases lastSize with _ | n <;>
    simp only [runConcl] at h ⊢
  · exact hasStableRun_tail stab t o tr h
  · exact hasStableRun_tail stab t o tr h
  · exact hasStableRun_tail stab t o tr h
  · rcases h with h | h
    · left
      rcases ho with rfl | rfl <;> simpa [runFrom] using h
    · exact Or.inr (hasStableRun_tail stab t o tr h)

/-- If `_wait_until_stable` (from any loop state) declares the file stable,
its polls witness a full stable window. -/
lemma waitGo_true_run (stab maxW : Nat) (sizeAt : Nat → SizeObs) (stopped : Nat → Bool) :
    ∀ (f t : Nat) (lastSize stableSince : Option Nat),
    (waitGo stab maxW sizeAt stopped f t lastSize stableSince).1 = true →
    runConcl stab lastSize stableSince
      (waitGo stab maxW sizeAt stopped f t lastSize stableSince).2 := by
  intro f
  induction f with
  | zero =>
    intro t lastSize stableSince htrue
    rw [waitGo] at htrue
    exact absurd htrue (by simp)
  | succ f ih =>
    intro t lastSize stableSince htrue
    rw [waitGo] at htrue ⊢
    by_cases hguard : t < maxW ∧ stopped t = false
    case neg =>
      rw [if_neg hguard] at htrue
      exact absurd htrue (by simp)
    case pos =>
      cases hobs : sizeAt t with
      | missing =>
        simp only [if_pos hguard, hobs] at htrue ⊢
        exact runConcl_cons_skip stab lastSize stableSince t _ (Or.inl rfl) _ (ih _ _ _ htrue)
      | statRaises =>
        simp only [if_pos hguard, hobs] at htrue ⊢
        exact runConcl_cons_skip stab lastSize stableSince t _ (Or.inr rfl) _ (ih _ _ _ htrue)
      | size n =>
        by_cases hlast : lastSize = some n
        · subst hlast
          by_cases hstab : stab ≤ t - stableSince.getD t
          · simp only [if_pos hguard, hobs, if_pos rfl, if_pos hstab] at htrue ⊢
            rcases stableSince with _ | s
            · have hz : stab = 0 := by simpa using hstab
              simp [runConcl, hasStableRun, hz]
            · simp only [Option.getD_some] at hstab
              simp only [runConcl]
              left
              simp [runFrom, hstab]
          · simp only [if_pos hguard, hobs, if_pos rfl, if_neg hstab] at htrue ⊢
            have ihr := ih _ _ _ htrue
            simp only [runConcl] at ihr
            rcases stableSince with _ | s
            · simp only [Option.getD_none] at ihr
              refine runConcl_of_hasRun stab _ _ _ ?_
              rcases ihr with hr | hr <;> simp [hasStableRun, hr]
            · simp only [Option.getD_some] at ihr hstab
              simp only [runConcl]
              rcases ihr with hr | hr
              · left
                simp only [runFrom, if_pos rfl, if_neg hstab]
                exact hr
              · exact Or.inr (hasStableRun_tail stab t _ _ hr)
        · simp only [if_pos hguard, hobs, if_neg hlast] at htrue ⊢
          have ihr := ih _ _ _ htrue
          simp only [runConcl] at ihr
          exact runConcl_of_hasRun stab _ _ _ (hasStableRun_tail stab t _ _ ihr)

/-- Claim C8: silent abandonment. For any enqueued file whose polled size
never remains unchanged over a full stability window within the max-wait
bound — i.e. the polls `_wait_until_stable` makes contain no stable run —
the wait returns false and the worker never invokes the `on_stable_file`
callback for the event; the model is total, mirroring the worker's
`except Exception: pass` (no error escapes). -/
theorem C8_watcher_silent_abandonment (stab maxW : Nat) (sizeAt : Nat → SizeObs)
    (stopped : Nat → Bool)
    (h : hasStableRun stab (FileWatcher.wait_until_stable stab maxW sizeAt stopped).2 = false) :
    (FileWatcher.wait_until_stable stab maxW sizeAt stopped).1 = false ∧
    FileWatcher.worker_handle stab maxW sizeAt stopped = [] := by
  have hmain : (waitGo stab maxW sizeAt stopped maxW 0 none none).1 = false := by
    by_contra hc
    have hT : (waitGo stab maxW sizeAt stopped maxW 0 none none).1 = true := by
      simpa using hc
    have hrun := waitGo_true_run stab maxW sizeAt stopped maxW 0 none none hT
    simp only [runConcl] at hrun
    have h' : hasStableRun stab (waitGo stab maxW sizeAt stopped maxW 0 none none).2 = false := h
    rw [h'] at hrun
    exact absurd hrun (by decide)
  refine ⟨hmain, ?_⟩
  unfold FileWatcher.worker_handle FileWatcher.wait_until_stable
  rw [hmain]
  simp

/-- Scenario B witness: a file whose size keeps changing (size = poll time)
under `stability_seconds = 1.5`, `max_wait_seconds = 60`: no stable run is
observed, the wait returns false, and no callback is produced. -/
theorem C8_watcher_silent_abandonment_witness :
    hasStableRun 1500
        (FileWatcher.wait_until_stable 1500 60000 (fun t => .size t) (fun _ => false)).2
      = false ∧
    ((FileWatcher.wait_until_stable 1500 60000 (fun t => .size t) (fun _ => false)).1 = false ∧
      FileWatcher.worker_handle 1500 60000 (fun t => .size t) (fun _ => false) = []) :=
  ⟨by decide,
   C8_watcher_silent_abandonment 1500 60000 (fun t => .size t) (fun _ => false) (by decide)⟩
